import Mathlib

/-!
Verification of the H3-IoT button-press logger firmware (src/src/main.cpp).

The firmware is a single control loop: a falling-edge interrupt debounces a
physical button, the main loop turns an accepted press into a timestamped
JSON record, appends it to an append-only SPIFFS log file and broadcasts it
over a websocket.  An HTTP handler offers a service action that truncates the
log.  This file gives a shallow embedding of that program and proves or
refutes the specification's claims about it.

Modelling conventions:
* `ulong` (32-bit unsigned on the ESP32) arithmetic is `Nat` with an explicit
  modulus `UINT32_MOD`; `millis()` values are naturals below `UINT32_MOD` and
  the C expression `a - b` on `ulong` is `wsub a b`.
* A SPIFFS file is `Option (List Char)`: `none` is a missing or unopenable
  file, `some cs` its byte contents (characters).
* Arduino `file.println(data)` writes `data` followed by carriage return and
  line feed, so an appended line contributes `data.data ++ [CR, LF]`.
* `String` fields and the FIFO `std::queue<String>` are Lean `String` and
  `List String` (head of the list = front of the queue).
-/

namespace PressLogger

/-- Modulus of 32-bit unsigned (`ulong`) arithmetic on the ESP32. -/
def UINT32_MOD : Nat := 2 ^ 32

/-- main.cpp line 52: `const int DEBOUNCE_DELAY = 250;` (milliseconds). -/
def DEBOUNCE_DELAY : Nat := 250

/-- Unsigned 32-bit subtraction `a - b` for `a b < UINT32_MOD`, as computed on
`ulong` operands in C. -/
def wsub (a b : Nat) : Nat := (a + UINT32_MOD - b) % UINT32_MOD

/-- The mutable program state touched by the embedded functions:
the `Button` struct `button1` (flag `isPressed`, counter `numberOfPresses`),
the volatile `previousInterruptTime`, the FIFO `buttonLog`, the two SPIFFS
files (`config::ButtonLogPath` and `config::wifiConfigFile`) and the sequence
of frames pushed through `ws.textAll`.  `currentInterruptTime` is not carried:
it is overwritten at every interrupt entry and read nowhere else. -/
structure DeviceState where
  isPressed : Bool
  previousInterruptTime : Nat
  numberOfPresses : Nat
  buttonLog : List String
  logFile : Option (List Char)
  wifiFile : Option (List Char)
  wsBroadcast : List String
  deriving Repr, DecidableEq

/-- main.cpp lines 116-125, `onButtonPress` (interrupt handler): record the
current `millis()` value `t`, and if the elapsed time since the last accepted
edge strictly exceeds `DEBOUNCE_DELAY`, set the pending-press flag and update
`previousInterruptTime`; otherwise leave the state unchanged. -/
def onButtonPress (t : Nat) (d : DeviceState) : DeviceState :=
  if wsub t d.previousInterruptTime > DEBOUNCE_DELAY then
    { d with isPressed := true, previousInterruptTime := t }
  else d

/-- main.cpp lines 156-161: the compact serialization produced by
`JsonDocument doc; doc["buttonPressTimestamp"] = ts; doc["buttonPressCount"] = n;
serializeJson(doc, jsonString)` — ArduinoJson emits the members in insertion
order with no whitespace.  `\x7b`/`\x7d` denote the literal braces. -/
def serializeRecord (ts : String) (n : Nat) : String :=
  "\x7b\"buttonPressTimestamp\":\"" ++ ts ++ "\",\"buttonPressCount\":" ++
    Nat.repr n ++ "\x7d"

/-- main.cpp lines 293-298: serialization written by `saveWiFiConfig`
(`doc["ssid"] = ssid; doc["password"] = password`). -/
def serializeWiFiConfig (ssid password : String) : String :=
  "\x7b\"ssid\":\"" ++ ssid ++ "\",\"password\":\"" ++ password ++ "\"\x7d"

/-- main.cpp lines 356-366, `appendToFile`: open with `FILE_APPEND` (which
creates a missing file) and `file.println(data)`, i.e. append
`data ++ CR ++ LF` to the current contents. -/
def appendToFile (data : String) (file : Option (List Char)) :
    Option (List Char) :=
  some ((file.getD []) ++ data.data ++ ['\r', '\n'])

/-- Worker for the `file.readStringUntil('\n')` loops: characters are consumed
one by one into the accumulator `acc` (kept reversed); a line feed terminates
the current chunk (the delimiter is consumed and not returned); end of file
terminates the last chunk.  `readLinesAux acc cs` is the list of successive
chunks `readStringUntil` returns when the stream holds `cs` and the current
partially-read chunk is `acc.reverse`. -/
def readLinesAux (acc : List Char) : List Char → List String
  | [] => [String.mk acc.reverse]
  | c :: cs =>
    if c = '\n' then
      String.mk acc.reverse :: (if cs.isEmpty then [] else readLinesAux [] cs)
    else
      readLinesAux (c :: acc) cs

/-- The chunks successively returned by `readStringUntil('\n')` on a stream
holding `cs`; an empty stream yields no chunk (`file.available()` is false at
once and the while-loops never run). -/
def readLines (cs : List Char) : List String :=
  match cs with
  | [] => []
  | c :: cs => readLinesAux [] (c :: cs)

/-- Lines of an optional file; a missing file yields no lines. -/
def readLinesOpt : Option (List Char) → List String
  | none => []
  | some cs => readLines cs

/-- Worker for main.cpp lines 400-404: `String content; while (file.available())
content = file.readStringUntil('\n');` — each chunk overwrites `content`, so
the result is the chunk the loop reads last. -/
def rfcAux (acc : List Char) : List Char → String
  | [] => String.mk acc.reverse
  | c :: cs =>
    if c = '\n' then
      (if cs.isEmpty then String.mk acc.reverse else rfcAux [] cs)
    else
      rfcAux (c :: acc) cs

/-- main.cpp lines 391-407, `readFileContents`: a file that cannot be opened
yields `""`; otherwise repeatedly `readStringUntil('\n')` into `content`
(overwriting it each time) while data remains, and return `content`. -/
def readFileContents : Option (List Char) → String
  | none => ""
  | some cs => rfcAux [] cs

/-- The member key `deserializeJson` / `doc["buttonPressCount"]` looks up. -/
def countKey : List Char := "\"buttonPressCount\":".data

/-- Scan for the first occurrence of `key` and return the characters that
follow it, or `none` when `key` does not occur. -/
def findAfter (key : List Char) : List Char → Option (List Char)
  | [] => none
  | c :: cs =>
    match key.isPrefixOf (c :: cs) with
    | true => some ((c :: cs).drop key.length)
    | false => findAfter key cs

/-- Numeric value of a decimal digit character. -/
def digitVal (c : Char) : Nat := c.toNat - 48

/-- Value of a big-endian list of decimal digit characters. -/
def parseDigitsList (cs : List Char) : Nat :=
  cs.foldl (fun a c => 10 * a + digitVal c) 0

/-- Model of main.cpp lines 384-388:
`deserializeJson(doc, content); return doc["buttonPressCount"].as<ulong>();`
restricted to the inputs this program produces (one serialized record line,
or an empty / garbage string).  The parser locates the `"buttonPressCount":`
member and reads the decimal digits of its value; when deserialization fails
or the member is absent, `doc["buttonPressCount"]` is null and `as<ulong>()`
returns 0. -/
def parseButtonPressCount (s : String) : Nat :=
  match findAfter countKey s.data with
  | none => 0
  | some rest => parseDigitsList (rest.takeWhile Char.isDigit)

/-- main.cpp lines 380-389, `loadButtonCountFromFile`: read the button-log
file (which keeps only the last line) and parse its `buttonPressCount`. -/
def loadButtonCountFromFile (file : Option (List Char)) : Nat :=
  parseButtonPressCount (readFileContents file)

/-- main.cpp lines 127-145, `handleOnButtonPress`: when the pending-press flag
is set, format the current wall-clock time (the `strftime` output is the
parameter `ts`), push it on the FIFO, increment the `ulong` counter and clear
the flag; otherwise do nothing. -/
def handleOnButtonPress (ts : String) (d : DeviceState) : DeviceState :=
  if d.isPressed then
    { d with
      buttonLog := d.buttonLog ++ [ts],
      numberOfPresses := (d.numberOfPresses + 1) % UINT32_MOD,
      isPressed := false }
  else d

/-- The `while (!buttonLog.empty())` loop of main.cpp lines 147-166, as a
structural recursion on the queue: pop the front timestamp, serialize it with
the current counter value, broadcast the JSON string and append it to the log
file; return the final file and broadcast list. -/
def drainLoop (counter : Nat) :
    List String → Option (List Char) → List String →
      Option (List Char) × List String
  | [], file, bc => (file, bc)
  | ts :: rest, file, bc =>
    drainLoop counter rest
      (appendToFile (serializeRecord ts counter) file)
      (bc ++ [serializeRecord ts counter])

/-- main.cpp lines 147-166, `processFifoBuffer`: drain the FIFO completely;
the counter does not change while draining, so every drained event is
serialized with the current `numberOfPresses`. -/
def processFifoBuffer (d : DeviceState) : DeviceState :=
  let p := drainLoop d.numberOfPresses d.buttonLog d.logFile d.wsBroadcast
  { d with buttonLog := [], logFile := p.1, wsBroadcast := p.2 }

/-- One iteration of `loop()` (main.cpp lines 98-112): `ws.cleanupClients()`
does not touch the modelled state; then `handleOnButtonPress` and
`processFifoBuffer`.  `ts` is the wall-clock string the iteration would
format if the flag is set. -/
def loopIter (ts : String) (d : DeviceState) : DeviceState :=
  processFifoBuffer (handleOnButtonPress ts d)

/-- Deliver one falling edge at `millis()` value `t` and then run a loop
iteration (further iterations between edges leave the state unchanged since
the flag is clear and the queue empty). -/
def injectEdge (t : Nat) (ts : String) (d : DeviceState) : DeviceState :=
  loopIter ts (onButtonPress t d)

/-- main.cpp lines 333-352, `handleServiceModeRequest`: `action` is the value
of the form field when present.  A missing field yields 400; `"reset"` removes
the button-log file, zeroes the counter and yields 200; every other value
yields 400 and changes nothing.  The result is the new state, the HTTP status
code and the response body. -/
def handleServiceModeRequest (action : Option String) (d : DeviceState) :
    DeviceState × Nat × String :=
  match action with
  | none => (d, 400, "Action parameter missing")
  | some a =>
    if a = "reset" then
      ({ d with logFile := none, numberOfPresses := 0 }, 200,
        "Data reset successfully")
    else
      (d, 400, "Invalid action")

/-- main.cpp lines 291-301, `saveWiFiConfig`: serialize the credentials and
append them to the credentials file (note: append, not overwrite). -/
def saveWiFiConfig (ssid password : String) (file : Option (List Char)) :
    Option (List Char) :=
  appendToFile (serializeWiFiConfig ssid password) file

/-- main.cpp lines 308-331, `handleWebSocketEvent` on `WS_EVT_CONNECT`: open
the persisted log (a missing file sends nothing), and send every nonempty
chunk returned by `readStringUntil('\n')` to the new client, in file order. -/
def wsConnectReplay : Option (List Char) → List String
  | none => []
  | some cs => (readLines cs).filter (fun l => !l.isEmpty)

/-- The messages a newly connected viewer receives, in order: the connect
handler runs to completion before any later loop iteration broadcasts, so the
replay precedes the live events `liveAfter` generated afterwards. -/
def clientMessages (file : Option (List Char)) (liveAfter : List String) :
    List String :=
  wsConnectReplay file ++ liveAfter

/-- A file consisting of the given lines, each terminated by a line feed.
Lines written by `appendToFile data` appear here as `data ++ "\r"` since
`println` emits CR LF. -/
def LinesFile : List String → List Char
  | [] => []
  | s :: rest => s.data ++ '\n' :: LinesFile rest

/-- The button-log file holding the given (timestamp, count) records, one
serialized record per line. -/
def logChars (rs : List (String × Nat)) : List Char :=
  LinesFile (rs.map fun r => serializeRecord r.1 r.2 ++ "\r")

/-- Characters `strftime "%Y-%m-%d %H:%M:%S"` can produce: decimal digits,
dash, space and colon. -/
def tsWF (ts : String) : Prop :=
  ∀ c ∈ ts.data, c.isDigit = true ∨ c = '-' ∨ c = ' ' ∨ c = ':'

instance (ts : String) : Decidable (tsWF ts) := by
  unfold tsWF; infer_instance

/-- Externally triggered transitions of the device, at loop-iteration
granularity: a loop iteration observing pending-press flag `pr` and wall
clock `ts`; the `/serviceMode` `reset` action; a device restart (which clears
all RAM state and re-runs `loadButtonCountFromFile`). -/
inductive Ev where
  | loopIt (pr : Bool) (ts : String)
  | svcReset
  | restart
  deriving Repr

/-- Timestamps delivered to loop iterations are `strftime` outputs. -/
def evOK : Ev → Prop
  | .loopIt _ ts => tsWF ts
  | .svcReset => True
  | .restart => True

/-- One transition.  `loopIt pr ts`: the interrupt context has left the
pending-press flag at `pr`; run the loop body.  `svcReset`: the state update
of `handleServiceModeRequest` with `action=reset`.  `restart`: `setup()` runs
again — RAM state is lost, the counter is recovered from the persisted log. -/
def stepEv (d : DeviceState) : Ev → DeviceState
  | .loopIt pr ts => loopIter ts { d with isPressed := pr }
  | .svcReset => (handleServiceModeRequest (some "reset") d).1
  | .restart =>
    { d with
      isPressed := false, previousInterruptTime := 0,
      numberOfPresses := loadButtonCountFromFile d.logFile,
      buttonLog := [], wsBroadcast := [] }

/-- The state after first boot with no persisted files: flag clear,
`previousInterruptTime = 0`, counter recovered from the absent log. -/
def initialState : DeviceState :=
  { isPressed := false, previousInterruptTime := 0,
    numberOfPresses := loadButtonCountFromFile none,
    buttonLog := [], logFile := none, wifiFile := none, wsBroadcast := [] }

/-- Run a sequence of transitions from the initial state. -/
def runEv (evs : List Ev) : DeviceState :=
  evs.foldl stepEv initialState

/-- The state after injecting the three falling edges of the specification's
example: t = 0 ms, 100 ms and 400 ms from the initial state. -/
def c3Final : DeviceState :=
  injectEdge 400 "t2" (injectEdge 100 "t1" (injectEdge 0 "t0" initialState))

/-- Invariant tying a device state to the records persisted since the last
reset: some record list `rs` with well-formed timestamps and counts
`1 % 2^32, 2 % 2^32, …` is exactly the persisted log, the in-memory counter
is the (wrapped) number of records, and at an iteration boundary the FIFO is
empty and the pending-press flag clear. -/
def LogInv (d : DeviceState) : Prop :=
  ∃ rs : List (String × Nat),
    (∀ r ∈ rs, tsWF r.1) ∧
    rs.map Prod.snd =
      (List.range rs.length).map (fun i => (i + 1) % UINT32_MOD) ∧
    ((rs = [] ∧ d.logFile = none) ∨ (rs ≠ [] ∧ d.logFile = some (logChars rs))) ∧
    d.numberOfPresses = rs.length % UINT32_MOD ∧
    d.buttonLog = [] ∧
    d.isPressed = false

/-- A concrete state with one pending queued event, used to instantiate the
drain-loop theorem. -/
def c7State : DeviceState :=
  { isPressed := false, previousInterruptTime := 0, numberOfPresses := 1,
    buttonLog := ["2024-05-01 10:00:00"], logFile := none, wifiFile := none,
    wsBroadcast := [] }

/-! ### Decimal digits: `Nat.repr` round-trips through `parseDigitsList` -/

lemma digitVal_digitChar {k : Nat} (h : k < 10) :
    digitVal (Nat.digitChar k) = k := by
  interval_cases k <;> decide

lemma isDigit_digitChar {k : Nat} (h : k < 10) :
    (Nat.digitChar k).isDigit = true := by
  interval_cases k <;> decide

lemma toDigitsCore_succ (fuel n : Nat) (ds : List Char) :
    Nat.toDigitsCore 10 (fuel + 1) n ds =
      if n / 10 = 0 then Nat.digitChar (n % 10) :: ds
      else Nat.toDigitsCore 10 fuel (n / 10) (Nat.digitChar (n % 10) :: ds) :=
  rfl

lemma toDigitsCore_acc (fuel : Nat) :
    ∀ (n : Nat) (ds : List Char),
      Nat.toDigitsCore 10 fuel n ds = Nat.toDigitsCore 10 fuel n [] ++ ds := by
  induction fuel with
  | zero => intro n ds; rfl
  | succ fuel ih =>
    intro n ds
    rw [toDigitsCore_succ, toDigitsCore_succ]
    by_cases h : n / 10 = 0
    · simp [h]
    · rw [if_neg h, if_neg h, ih (n / 10) (Nat.digitChar (n % 10) :: ds),
        ih (n / 10) [Nat.digitChar (n % 10)], List.append_assoc]
      rfl

lemma parseDigitsList_append_singleton (cs : List Char) (c : Char) :
    parseDigitsList (cs ++ [c]) = 10 * parseDigitsList cs + digitVal c := by
  unfold parseDigitsList
  rw [List.foldl_append]
  rfl

lemma toDigitsCore_spec (fuel : Nat) :
    ∀ n, n < fuel →
      parseDigitsList (Nat.toDigitsCore 10 fuel n []) = n ∧
      ∀ c ∈ Nat.toDigitsCore 10 fuel n [], c.isDigit = true := by
  induction fuel with
  | zero => intro n h; omega
  | succ fuel ih =>
    intro n h
    rw [toDigitsCore_succ]
    by_cases h0 : n / 10 = 0
    · have hn : n < 10 := by omega
      rw [if_pos h0]
      refine ⟨?_, ?_⟩
      · show parseDigitsList ([] ++ [Nat.digitChar (n % 10)]) = n
        rw [parseDigitsList_append_singleton]
        have hm : n % 10 = n := Nat.mod_eq_of_lt hn
        rw [hm, digitVal_digitChar hn]
        have hz : parseDigitsList ([] : List Char) = 0 := rfl
        omega
      · intro c hc
        rw [List.mem_singleton] at hc
        subst hc
        exact isDigit_digitChar (Nat.mod_lt n (by norm_num))
    · have hpos : 0 < n := by
        rcases Nat.eq_zero_or_pos n with h1 | h1
        · subst h1; simp at h0
        · exact h1
      have hdiv : n / 10 < n := Nat.div_lt_self hpos (by norm_num)
      have hfuel : n / 10 < fuel := by omega
      rw [if_neg h0, toDigitsCore_acc]
      obtain ⟨ihp, ihd⟩ := ih (n / 10) hfuel
      refine ⟨?_, ?_⟩
      · rw [parseDigitsList_append_singleton, ihp,
          digitVal_digitChar (Nat.mod_lt n (by norm_num))]
        omega
      · intro c hc
        rw [List.mem_append] at hc
        rcases hc with hc | hc
        · exact ihd c hc
        · rw [List.mem_singleton] at hc
          subst hc
          exact isDigit_digitChar (Nat.mod_lt n (by norm_num))

lemma repr_data (n : Nat) :
    (Nat.repr n).data = Nat.toDigitsCore 10 (n + 1) n [] := rfl

lemma parseDigitsList_repr (n : Nat) : parseDigitsList (Nat.repr n).data = n := by
  rw [repr_data]
  exact (toDigitsCore_spec (n + 1) n (Nat.lt_succ_self n)).1

lemma repr_isDigit (n : Nat) : ∀ c ∈ (Nat.repr n).data, c.isDigit = true := by
  rw [repr_data]
  exact (toDigitsCore_spec (n + 1) n (Nat.lt_succ_self n)).2

/-! ### Locating the `buttonPressCount` member -/

lemma findAfter_cons {key : List Char} (c : Char) (cs : List Char) :
    findAfter key (c :: cs) =
      match key.isPrefixOf (c :: cs) with
      | true => some ((c :: cs).drop key.length)
      | false => findAfter key cs := rfl

lemma findAfter_cons_neg {key : List Char} {c : Char} {cs : List Char}
    (h : key.isPrefixOf (c :: cs) = false) :
    findAfter key (c :: cs) = findAfter key cs := by
  rw [findAfter_cons, h]

lemma findAfter_cons_pos {key : List Char} {c : Char} {cs : List Char}
    (h : key.isPrefixOf (c :: cs) = true) :
    findAfter key (c :: cs) = some ((c :: cs).drop key.length) := by
  rw [findAfter_cons, h]

lemma isPrefixOf_cons₂_self {a : Char} (as bs : List Char) :
    (a :: as).isPrefixOf (a :: bs) = as.isPrefixOf bs := by
  show (a == a && as.isPrefixOf bs) = as.isPrefixOf bs
  rw [beq_self_eq_true, Bool.true_and]

lemma isPrefixOf_append_self : ∀ (k z : List Char), k.isPrefixOf (k ++ z) = true := by
  intro k z
  induction k with
  | nil => simp
  | cons a as ih => rw [List.cons_append, isPrefixOf_cons₂_self]; exact ih

lemma countKey_eq : countKey = '"' :: "buttonPressCount\":".data := rfl

/-- Characters of a timestamp are never a double quote, a letter b, or a line
feed. -/
lemma tsWF_chars {ts : String} (h : tsWF ts) :
    ∀ c ∈ ts.data, ¬ c = '"' ∧ ¬ c = 'b' ∧ ¬ c = '\n' := by
  intro c hc
  rcases h c hc with hd | h1 | h1 | h1
  · refine ⟨?_, ?_, ?_⟩ <;> intro he <;> subst he <;> exact absurd hd (by decide)
  all_goals subst h1; exact ⟨by decide, by decide, by decide⟩

lemma findAfter_skip_nonquote {l : List Char} (hl : ∀ c ∈ l, ¬ c = '"')
    (z : List Char) : findAfter countKey (l ++ z) = findAfter countKey z := by
  induction l with
  | nil => rfl
  | cons c cs ih =>
    have hfalse : countKey.isPrefixOf (c :: (cs ++ z)) = false := by
      rw [countKey_eq]
      show ('"' == c && _) = false
      rw [beq_eq_false_iff_ne.mpr (fun he => hl c (by simp) he.symm)]
      rfl
    rw [List.cons_append, findAfter_cons_neg hfalse]
    exact ih (fun c hc => hl c (by simp [hc]))

lemma findAfter_countKey_self (Z : List Char) :
    findAfter countKey (countKey ++ Z) = some Z := by
  have h1 : countKey ++ Z = '"' :: ("buttonPressCount\":".data ++ Z) := rfl
  rw [h1, findAfter_cons_pos (by rw [← h1]; exact isPrefixOf_append_self countKey Z)]
  rw [← h1, List.drop_left' rfl]

lemma serializeRecord_data (ts : String) (n : Nat) :
    (serializeRecord ts n ++ "\r").data =
      "\x7b\"buttonPressTimestamp\":".data ++
        ('"' :: (ts.data ++
          ('"' :: ',' :: (countKey ++ ((Nat.repr n).data ++ ['\x7d', '\r']))))) := by
  show ("\x7b\"buttonPressTimestamp\":\"" ++ ts ++ "\",\"buttonPressCount\":" ++
    Nat.repr n ++ "\x7d" ++ "\r").data = _
  simp [String.data_append, countKey]

lemma takeWhile_all_append {p : Char → Bool} :
    ∀ (l₁ : List Char), (∀ c ∈ l₁, p c = true) →
      ∀ {d : Char}, p d = false → ∀ (l₂ : List Char),
        (l₁ ++ d :: l₂).takeWhile p = l₁ := by
  intro l₁
  induction l₁ with
  | nil => intro _ d hd l₂; simp [List.takeWhile_cons, hd]
  | cons c cs ih =>
    intro h d hd l₂
    rw [List.cons_append, List.takeWhile_cons, h c (by simp)]
    simp only [if_true]
    rw [ih (fun x hx => h x (by simp [hx])) hd l₂]

/-- The member scan on the full serialized line: everything before the
`"buttonPressCount":` key is skipped, because no key occurrence can start
inside the fixed prefix (the `buttonPressTimestamp` key differs at its 13th
character) nor inside the timestamp (whose characters are never a quote, and
never the letter b that follows the key's opening quote). -/
lemma findAfter_serializeRecord {ts : String} (h : tsWF ts) (n : Nat) :
    findAfter countKey (serializeRecord ts n ++ "\r").data =
      some ((Nat.repr n).data ++ ['\x7d', '\r']) := by
  rw [serializeRecord_data]
  have step1 : ∀ X : List Char,
      findAfter countKey ("\x7b\"buttonPressTimestamp\":".data ++ ('"' :: X)) =
        findAfter countKey ('"' :: X) := fun X => rfl
  rw [step1]
  have hts := tsWF_chars h
  have step2 : findAfter countKey
      ('"' :: (ts.data ++
        ('"' :: ',' :: (countKey ++ ((Nat.repr n).data ++ ['\x7d', '\r']))))) =
      findAfter countKey
        (ts.data ++
          ('"' :: ',' :: (countKey ++ ((Nat.repr n).data ++ ['\x7d', '\r'])))) := by
    apply findAfter_cons_neg
    rw [countKey_eq]
    rw [isPrefixOf_cons₂_self]
    cases hd : ts.data with
    | nil => rfl
    | cons c rest =>
      show ('b' == c && _) = false
      have hb : ¬ c = 'b' := (hts c (by rw [hd]; simp)).2.1
      rw [beq_eq_false_iff_ne.mpr (fun he => hb he.symm)]
      rfl
  rw [step2]
  rw [findAfter_skip_nonquote (fun c hc => (hts c hc).1)]
  have step4 : findAfter countKey
      ('"' :: ',' :: (countKey ++ ((Nat.repr n).data ++ ['\x7d', '\r']))) =
      findAfter countKey (countKey ++ ((Nat.repr n).data ++ ['\x7d', '\r'])) := rfl
  rw [step4, findAfter_countKey_self]

/-- Parsing the `buttonPressCount` member back out of a serialized record
line recovers the count. -/
lemma parse_serialize {ts : String} (h : tsWF ts) (n : Nat) :
    parseButtonPressCount (serializeRecord ts n ++ "\r") = n := by
  show (match findAfter countKey (serializeRecord ts n ++ "\r").data with
    | none => 0
    | some rest => parseDigitsList (rest.takeWhile Char.isDigit)) = n
  rw [findAfter_serializeRecord h n]
  show parseDigitsList
    (((Nat.repr n).data ++ '\x7d' :: ['\r']).takeWhile Char.isDigit) = n
  rw [takeWhile_all_append (Nat.repr n).data (repr_isDigit n) (by decide)]
  exact parseDigitsList_repr n

/-! ### No serialized line contains a line feed -/

lemma append_cr_no_newline {s : String} (h : '\n' ∉ s.data) :
    '\n' ∉ (s ++ "\r").data := by
  rw [String.data_append]
  intro hm
  rcases List.mem_append.mp hm with h1 | h1
  · exact h h1
  · exact absurd h1 (by decide)

lemma serializeRecord_no_newline {ts : String} (h : tsWF ts) (n : Nat) :
    '\n' ∉ (serializeRecord ts n).data := by
  unfold serializeRecord
  simp only [String.data_append]
  intro hm
  simp only [List.mem_append] at hm
  rcases hm with (((hm | hm) | hm) | hm) | hm
  · exact absurd hm (by decide)
  · exact (tsWF_chars h '\n' hm).2.2 rfl
  · exact absurd hm (by decide)
  · exact absurd ((repr_isDigit n) '\n' hm) (by decide)
  · exact absurd hm (by decide)

lemma serializeWiFiConfig_no_newline {ssid password : String}
    (hs : '\n' ∉ ssid.data) (hp : '\n' ∉ password.data) :
    '\n' ∉ (serializeWiFiConfig ssid password).data := by
  unfold serializeWiFiConfig
  simp only [String.data_append]
  intro hm
  simp only [List.mem_append] at hm
  rcases hm with (((hm | hm) | hm) | hm) | hm
  · exact absurd hm (by decide)
  · exact hs hm
  · exact absurd hm (by decide)
  · exact hp hm
  · exact absurd hm (by decide)

/-! ### Reading files back line by line -/

lemma rla_other {c : Char} (hc : ¬ c = '\n') (acc cs : List Char) :
    readLinesAux acc (c :: cs) = readLinesAux (c :: acc) cs := by
  simp [readLinesAux, hc]

lemma rla_line (z : List Char) :
    ∀ l : List Char, '\n' ∉ l → ∀ acc,
      readLinesAux acc (l ++ '\n' :: z) =
        String.mk (acc.reverse ++ l) ::
          (if z.isEmpty then [] else readLinesAux [] z) := by
  intro l
  induction l with
  | nil => intro _ acc; simp [readLinesAux]
  | cons c cs ih =>
    intro hl acc
    have hc : ¬ c = '\n' := fun he => hl (by simp [he])
    rw [List.cons_append, rla_other hc]
    rw [ih (fun hm => hl (by simp [hm])) (c :: acc)]
    simp [List.append_assoc]

lemma readLines_nonempty {cs : List Char} (h : cs ≠ []) :
    readLines cs = readLinesAux [] cs := by
  cases cs with
  | nil => exact absurd rfl h
  | cons c cs => rfl

lemma LinesFile_ne_nil (s : String) (rest : List String) :
    LinesFile (s :: rest) ≠ [] := by
  show s.data ++ '\n' :: LinesFile rest ≠ []
  cases hd : s.data <;> simp

lemma readLines_LinesFile :
    ∀ ls : List String, (∀ s ∈ ls, '\n' ∉ s.data) →
      readLines (LinesFile ls) = ls := by
  intro ls
  induction ls with
  | nil => intro _; rfl
  | cons s rest ih =>
    intro h
    have h1 : LinesFile (s :: rest) = s.data ++ '\n' :: LinesFile rest := rfl
    rw [readLines_nonempty (LinesFile_ne_nil s rest), h1,
      rla_line (LinesFile rest) s.data (h s (by simp)) []]
    have hs : String.mk (List.reverse [] ++ s.data) = s := by
      cases s with
      | mk d => rfl
    rw [hs]
    cases hr : rest with
    | nil => simp [LinesFile]
    | cons s2 rest2 =>
      have hne : LinesFile (s2 :: rest2) ≠ [] := LinesFile_ne_nil s2 rest2
      rw [if_neg (by simpa [List.isEmpty_iff] using hne), ← hr,
        ← readLines_nonempty (by rw [hr]; exact hne),
        ih (fun x hx => h x (by simp [hx]))]

lemma rla_ne_nil : ∀ (cs acc : List Char), readLinesAux acc cs ≠ [] := by
  intro cs
  induction cs with
  | nil => intro acc; simp [readLinesAux]
  | cons c cs ih =>
    intro acc
    by_cases hc : c = '\n'
    · subst hc; simp [readLinesAux]
    · rw [rla_other hc]; exact ih (c :: acc)

lemma getLastD_irrel {α : Type} {l : List α} (h : l ≠ []) (a b : α) :
    l.getLastD a = l.getLastD b := by
  cases l with
  | nil => exact absurd rfl h
  | cons x xs => rw [List.getLastD_cons, List.getLastD_cons]

lemma rfcAux_eq : ∀ (cs acc : List Char),
    rfcAux acc cs = (readLinesAux acc cs).getLastD "" := by
  intro cs
  induction cs with
  | nil => intro acc; rfl
  | cons c cs ih =>
    intro acc
    by_cases hc : c = '\n'
    · subst hc
      rcases cs with _ | ⟨c2, cs2⟩
      · rfl
      · have h1 : rfcAux acc ('\n' :: c2 :: cs2) = rfcAux [] (c2 :: cs2) := by
          simp [rfcAux]
        have h2 : readLinesAux acc ('\n' :: c2 :: cs2) =
            String.mk acc.reverse :: readLinesAux [] (c2 :: cs2) := by
          simp [readLinesAux]
        rw [h1, h2, ih [], List.getLastD_cons]
        exact getLastD_irrel (rla_ne_nil (c2 :: cs2) []) _ _
    · have h1 : rfcAux acc (c :: cs) = rfcAux (c :: acc) cs := by
        simp [rfcAux, hc]
      rw [h1, rla_other hc, ih (c :: acc)]

/-- `readFileContents` returns the last line of a line-terminated file. -/
lemma readFileContents_LinesFile (ls : List String)
    (h : ∀ s ∈ ls, '\n' ∉ s.data) :
    readFileContents (some (LinesFile ls)) = ls.getLastD "" := by
  show rfcAux [] (LinesFile ls) = ls.getLastD ""
  rw [rfcAux_eq]
  cases hls : ls with
  | nil => rfl
  | cons s rest =>
    rw [← readLines_nonempty (LinesFile_ne_nil s rest),
      readLines_LinesFile (s :: rest) (fun x hx => h x (by rw [hls]; exact hx))]

/-! ### Appending lines -/

lemma LinesFile_append :
    ∀ ls1 ls2 : List String,
      LinesFile (ls1 ++ ls2) = LinesFile ls1 ++ LinesFile ls2 := by
  intro ls1 ls2
  induction ls1 with
  | nil => rfl
  | cons s rest ih =>
    show s.data ++ '\n' :: LinesFile (rest ++ ls2) = _
    rw [ih]
    simp [LinesFile]

lemma appendToFile_some_LinesFile (data : String) (ls : List String) :
    appendToFile data (some (LinesFile ls)) =
      some (LinesFile (ls ++ [data ++ "\r"])) := by
  show some (LinesFile ls ++ data.data ++ ['\r', '\n']) = _
  rw [LinesFile_append]
  simp [LinesFile, String.data_append]

lemma appendToFile_none (data : String) :
    appendToFile data none = some (LinesFile [data ++ "\r"]) := by
  show some ([] ++ data.data ++ ['\r', '\n']) = _
  simp [LinesFile, String.data_append]

lemma logChars_append (rs : List (String × Nat)) (ts : String) (n : Nat) :
    appendToFile (serializeRecord ts n) (some (logChars rs)) =
      some (logChars (rs ++ [(ts, n)])) := by
  unfold logChars
  rw [appendToFile_some_LinesFile, List.map_append]
  rfl

lemma logChars_none (ts : String) (n : Nat) :
    appendToFile (serializeRecord ts n) none = some (logChars [(ts, n)]) := by
  rw [appendToFile_none]
  rfl

/-! ### The drain loop -/

lemma drainLoop_bc (counter : Nat) :
    ∀ (q : List String) (file : Option (List Char)) (bc : List String),
      (drainLoop counter q file bc).2 =
        bc ++ q.map (fun ts => serializeRecord ts counter) := by
  intro q
  induction q with
  | nil => intro file bc; simp [drainLoop]
  | cons t q ih =>
    intro file bc
    show (drainLoop counter q _ (bc ++ [serializeRecord t counter])).2 = _
    rw [ih]
    simp

lemma drainLoop_some (counter : Nat) :
    ∀ (q : List String) (rs : List (String × Nat)) (bc : List String),
      (drainLoop counter q (some (logChars rs)) bc).1 =
        some (logChars (rs ++ q.map (fun ts => (ts, counter)))) := by
  intro q
  induction q with
  | nil => intro rs bc; simp [drainLoop]
  | cons t q ih =>
    intro rs bc
    show (drainLoop counter q
      (appendToFile (serializeRecord t counter) (some (logChars rs))) _).1 = _
    rw [logChars_append, ih]
    simp

lemma drainLoop_none (counter : Nat) (t : String) (q bc : List String) :
    (drainLoop counter (t :: q) none bc).1 =
      some (logChars ((t :: q).map (fun ts => (ts, counter)))) := by
  show (drainLoop counter q (appendToFile (serializeRecord t counter) none) _).1 = _
  rw [logChars_none, drainLoop_some]
  simp

/-! ### Counter recovery from a record file -/

lemma load_logChars {rs : List (String × Nat)} (hwf : ∀ r ∈ rs, tsWF r.1)
    {rs0 : List (String × Nat)} {r : String × Nat} (heq : rs = rs0 ++ [r]) :
    loadButtonCountFromFile (some (logChars rs)) = r.2 := by
  have hnl : ∀ s ∈ rs.map (fun r => serializeRecord r.1 r.2 ++ "\r"),
      '\n' ∉ s.data := by
    intro s hs
    rw [List.mem_map] at hs
    obtain ⟨r2, hr2, hr2e⟩ := hs
    rw [← hr2e]
    exact append_cr_no_newline (serializeRecord_no_newline (hwf r2 hr2) r2.2)
  unfold loadButtonCountFromFile logChars
  rw [readFileContents_LinesFile _ hnl]
  subst heq
  rw [List.map_append]
  simp only [List.map_cons, List.map_nil]
  rw [List.getLastD_concat]
  exact parse_serialize (hwf r (by simp)) r.2

lemma logInv_last_count {rs : List (String × Nat)}
    (hsnd : rs.map Prod.snd =
      (List.range rs.length).map (fun i => (i + 1) % UINT32_MOD))
    {rs0 : List (String × Nat)} {r : String × Nat} (heq : rs = rs0 ++ [r]) :
    r.2 = rs.length % UINT32_MOD := by
  subst heq
  have hlen : (rs0 ++ [r]).length = rs0.length + 1 := by simp
  rw [hlen] at hsnd ⊢
  have h2 := congrArg (fun l => l.getLastD 0) hsnd
  simp only [List.map_append, List.range_succ, List.map_cons, List.map_nil] at h2
  rw [List.getLastD_concat, List.getLastD_concat] at h2
  exact h2

/-! ### The log invariant is preserved by every transition -/

lemma stepEv_inv {d : DeviceState} (hd : LogInv d) {e : Ev} (he : evOK e) :
    LogInv (stepEv d e) := by
  obtain ⟨rs, hwf, hsnd, hfile, hcnt, hq, hfl⟩ := hd
  cases e with
  | loopIt pr ts =>
    cases pr with
    | false =>
      have hstep : stepEv d (.loopIt false ts) =
          { d with isPressed := false, buttonLog := [] } := by
        simp [stepEv, loopIter, handleOnButtonPress, processFifoBuffer, hq,
          drainLoop]
      rw [hstep]
      exact ⟨rs, hwf, hsnd, by simpa using hfile, hcnt, rfl, rfl⟩
    | true =>
      have hts : tsWF ts := he
      have hcq : (d.numberOfPresses + 1) % UINT32_MOD =
          (rs.length + 1) % UINT32_MOD := by
        rw [hcnt, Nat.mod_add_mod]
      have hstep : stepEv d (.loopIt true ts) =
          { d with isPressed := false,
                   numberOfPresses := (rs.length + 1) % UINT32_MOD,
                   buttonLog := [],
                   logFile := (drainLoop ((rs.length + 1) % UINT32_MOD) [ts]
                     d.logFile d.wsBroadcast).1,
                   wsBroadcast := (drainLoop ((rs.length + 1) % UINT32_MOD) [ts]
                     d.logFile d.wsBroadcast).2 } := by
        simp [stepEv, loopIter, handleOnButtonPress, processFifoBuffer, hq, hcq]
      rw [hstep]
      refine ⟨rs ++ [(ts, (rs.length + 1) % UINT32_MOD)], ?_, ?_, ?_, ?_, rfl, rfl⟩
      · intro r hr
        rcases List.mem_append.mp hr with h1 | h1
        · exact hwf r h1
        · rw [List.mem_singleton] at h1
          rw [h1]
          exact hts
      · simp only [List.map_append, List.length_append, List.length_singleton,
          List.range_succ, List.map_cons, List.map_nil]
        rw [hsnd]
      · right
        refine ⟨by simp, ?_⟩
        rcases hfile with ⟨hrs0, hfn⟩ | ⟨hrs0, hfs⟩
        · rw [hfn, hrs0, drainLoop_none]
          rfl
        · rw [hfs, drainLoop_some]
          rfl
      · simp
  | svcReset =>
    have hstep : stepEv d .svcReset =
        { d with logFile := none, numberOfPresses := 0 } := by
      simp [stepEv, handleServiceModeRequest]
    rw [hstep]
    exact ⟨[], by simp, by simp, Or.inl ⟨rfl, rfl⟩, by simp, by simpa using hq,
      by simpa using hfl⟩
  | restart =>
    have hstep : stepEv d .restart =
        { d with isPressed := false, previousInterruptTime := 0,
                 numberOfPresses := loadButtonCountFromFile d.logFile,
                 buttonLog := [], wsBroadcast := [] } := rfl
    rw [hstep]
    refine ⟨rs, hwf, hsnd, by simpa using hfile, ?_, rfl, rfl⟩
    show loadButtonCountFromFile d.logFile = rs.length % UINT32_MOD
    rcases hfile with ⟨hrs0, hfn⟩ | ⟨hrs0, hfs⟩
    · rw [hfn, hrs0]
      rfl
    · rcases List.eq_nil_or_concat' rs with h0 | ⟨rs0, r, hr⟩
      · exact absurd h0 hrs0
      · rw [hfs, load_logChars hwf hr]
        exact logInv_last_count hsnd hr

lemma foldl_inv :
    ∀ (evs : List Ev) (d : DeviceState), LogInv d →
      (∀ e ∈ evs, evOK e) → LogInv (evs.foldl stepEv d) := by
  intro evs
  induction evs with
  | nil => intro d hd _; exact hd
  | cons e evs ih =>
    intro d hd h
    exact ih _ (stepEv_inv hd (h e (by simp))) (fun x hx => h x (by simp [hx]))

lemma initialState_inv : LogInv initialState := by
  refine ⟨[], by simp, by simp, Or.inl ⟨rfl, rfl⟩, ?_, rfl, rfl⟩
  decide

lemma runEv_inv (evs : List Ev) (h : ∀ e ∈ evs, evOK e) : LogInv (runEv evs) :=
  foldl_inv evs initialState initialState_inv h

lemma runEv_buttonLog_empty (evs : List Ev) : (runEv evs).buttonLog = [] := by
  suffices h : ∀ (l : List Ev) (d : DeviceState), d.buttonLog = [] →
      (l.foldl stepEv d).buttonLog = [] from h evs initialState rfl
  intro l
  induction l with
  | nil => intro d h; exact h
  | cons e l ih =>
    intro d h
    apply ih
    cases e with
    | loopIt pr ts => rfl
    | svcReset => simpa [stepEv, handleServiceModeRequest] using h
    | restart => rfl

/-- The lines of a record file are the serialized records, in order. -/
lemma readLinesOpt_logChars {rs : List (String × Nat)}
    (hwf : ∀ r ∈ rs, tsWF r.1) :
    readLinesOpt (some (logChars rs)) =
      rs.map (fun r => serializeRecord r.1 r.2 ++ "\r") := by
  show readLines (LinesFile _) = _
  apply readLines_LinesFile
  intro s hs
  rw [List.mem_map] at hs
  obtain ⟨r2, hr2, hr2e⟩ := hs
  rw [← hr2e]
  exact append_cr_no_newline (serializeRecord_no_newline (hwf r2 hr2) r2.2)

/-! ### The claims -/

/-- C1, counterexample: a POST to /serviceMode with action = resetWiFi does
not clear credentials and restart with status 200 as claimed — the handler
has no resetWiFi branch at all, answers 400 Invalid action and leaves the
whole state (including the stored credentials) unchanged. -/
theorem spec_C1_counterexample :
    handleServiceModeRequest (some "resetWiFi") initialState =
      (initialState, 400, "Invalid action") ∧
    ¬ (handleServiceModeRequest (some "resetWiFi") initialState).2.1 = 200 := by
  constructor
  · rfl
  · decide

/-- C1, amended: only action = reset is recognized; every other action value
— resetWiFi included — gets status 400 with body Invalid action and leaves
the device state unchanged. -/
theorem spec_C1_amended (a : String) (d : DeviceState) (h : ¬ a = "reset") :
    handleServiceModeRequest (some a) d = (d, 400, "Invalid action") := by
  simp [handleServiceModeRequest, h]

/-- C1, witness: the amended theorem applied to action resetWiFi. -/
theorem spec_C1_witness :
    ¬ ("resetWiFi" : String) = "reset" ∧
    handleServiceModeRequest (some "resetWiFi") initialState =
      (initialState, 400, "Invalid action") :=
  ⟨by decide, spec_C1_amended "resetWiFi" initialState (by decide)⟩

/-- C2, counterexample: an edge whose elapsed time since the last accepted
edge is exactly the 250 ms threshold is ignored, although the claim says
every edge with elapsed time at or beyond the threshold is accepted — the
code uses a strict comparison. -/
theorem spec_C2_counterexample :
    wsub 250 initialState.previousInterruptTime ≥ DEBOUNCE_DELAY ∧
    onButtonPress 250 initialState = initialState ∧
    (onButtonPress 250 initialState).isPressed = false := by
  refine ⟨by decide, by decide, by decide⟩

/-- C2, amended: an edge is ignored when the elapsed time since the last
accepted edge is at most 250 ms, and accepted (flag set, timestamp updated)
exactly when the elapsed time strictly exceeds 250 ms; over a sequence of
edges this characterization applies at each edge in turn, since the state
threads through. -/
theorem spec_C2_amended (t : Nat) (d : DeviceState)
    (h1 : d.previousInterruptTime ≤ t) (h2 : t < UINT32_MOD) :
    (t - d.previousInterruptTime ≤ DEBOUNCE_DELAY → onButtonPress t d = d) ∧
    (DEBOUNCE_DELAY < t - d.previousInterruptTime →
      onButtonPress t d =
        { d with isPressed := true, previousInterruptTime := t }) := by
  have hA : UINT32_MOD = 2 ^ 32 := rfl
  have hw : wsub t d.previousInterruptTime = t - d.previousInterruptTime := by
    unfold wsub
    have e1 : t + UINT32_MOD - d.previousInterruptTime =
        UINT32_MOD + (t - d.previousInterruptTime) := by omega
    rw [e1, Nat.add_mod_left]
    exact Nat.mod_eq_of_lt (by omega)
  have hD : DEBOUNCE_DELAY = 250 := rfl
  constructor
  · intro hle
    unfold onButtonPress
    rw [hw, if_neg (by omega)]
  · intro hgt
    unfold onButtonPress
    rw [hw, if_pos hgt]

/-- C2, witness: the amended theorem applied at an edge 300 ms after the
last accepted edge, which is accepted. -/
theorem spec_C2_witness :
    initialState.previousInterruptTime ≤ 300 ∧ 300 < UINT32_MOD ∧
    DEBOUNCE_DELAY < 300 - initialState.previousInterruptTime ∧
    onButtonPress 300 initialState =
      { initialState with isPressed := true, previousInterruptTime := 300 } :=
  ⟨by decide, by decide, by decide,
    (spec_C2_amended 300 initialState (by decide) (by decide)).2 (by decide)⟩

/-- C3, counterexample: injecting falling edges at t = 0, 100 and 400 ms from
the initial state yields exactly one accepted press and one appended log
line, not the two the claim asserts — at t = 0 the elapsed time since
`previousInterruptTime = 0` is 0, which does not exceed the 250 ms threshold,
so the first edge is already debounced away. -/
theorem spec_C3_counterexample :
    c3Final.numberOfPresses = 1 ∧
    ¬ c3Final.numberOfPresses = 2 ∧
    (readLinesOpt c3Final.logFile).length = 1 ∧
    ¬ (readLinesOpt c3Final.logFile).length = 2 := by
  refine ⟨by decide, by decide, by decide, by decide⟩

/-- C3, amended: the same injection yields exactly one accepted press (the
edge at t = 400; the edges at t = 0 and t = 100 are ignored), and after
draining, the log has gained exactly one line whose buttonPressCount is 1. -/
theorem spec_C3_amended :
    (onButtonPress 0 initialState).isPressed = false ∧
    (onButtonPress 100 initialState).isPressed = false ∧
    (onButtonPress 400 initialState).isPressed = true ∧
    c3Final.numberOfPresses = 1 ∧
    readLinesOpt c3Final.logFile = [serializeRecord "t2" 1 ++ "\r"] ∧
    loadButtonCountFromFile c3Final.logFile = 1 := by
  refine ⟨by decide, by decide, by decide, by decide, by decide, by decide⟩

/-- C4: recovering the counter from a log of M appended records whose last
line carries buttonPressCount = M returns exactly M, and a missing,
unreadable or empty log file recovers 0. -/
theorem spec_C4 (rs : List (String × Nat)) (ts : String) (M : Nat)
    (hwf : ∀ r ∈ rs, tsWF r.1) (hts : tsWF ts)
    (hM : rs.length + 1 = M) (hMlt : M < UINT32_MOD) :
    loadButtonCountFromFile (some (logChars (rs ++ [(ts, M)]))) = M ∧
    loadButtonCountFromFile none = 0 ∧
    loadButtonCountFromFile (some []) = 0 := by
  refine ⟨?_, rfl, rfl⟩
  have hwf2 : ∀ r ∈ rs ++ [(ts, M)], tsWF r.1 := by
    intro r hr
    rcases List.mem_append.mp hr with h1 | h1
    · exact hwf r h1
    · rw [List.mem_singleton] at h1
      rw [h1]
      exact hts
  exact load_logChars hwf2 rfl

/-- C4, witness: a two-record log whose last record carries count 2
recovers 2. -/
theorem spec_C4_witness :
    tsWF "2024-05-01 10:00:05" ∧
    ([("2024-05-01 10:00:00", 1)] : List (String × Nat)).length + 1 = 2 ∧
    2 < UINT32_MOD ∧
    loadButtonCountFromFile
      (some (logChars ([("2024-05-01 10:00:00", 1)] ++
        [("2024-05-01 10:00:05", 2)]))) = 2 :=
  ⟨by decide, by decide, by decide,
    (spec_C4 [("2024-05-01 10:00:00", 1)] "2024-05-01 10:00:05" 2
      (by decide) (by decide) (by decide) (by decide)).1⟩

/-- C5: in every state reachable by loop iterations, service resets and
restarts, the buttonPressCount field parsed back from the most recently
appended log line equals the number of lines in the log, i.e. the number of
PressEvent records appended since the last reset (stated below the 2^32
wrap limit of the ulong counter). -/
theorem spec_C5 (evs : List Ev) (hok : ∀ e ∈ evs, evOK e)
    (hne : readLinesOpt (runEv evs).logFile ≠ [])
    (hlt : (readLinesOpt (runEv evs).logFile).length < UINT32_MOD) :
    parseButtonPressCount ((readLinesOpt (runEv evs).logFile).getLastD "") =
      (readLinesOpt (runEv evs).logFile).length := by
  obtain ⟨rs, hwf, hsnd, hfile, hcnt, hq, hfl⟩ := runEv_inv evs hok
  rcases hfile with ⟨hrs0, hfn⟩ | ⟨hrs0, hfs⟩
  · rw [hfn] at hne
    exact absurd rfl hne
  · rw [hfs] at hne hlt ⊢
    rw [readLinesOpt_logChars hwf] at hne hlt ⊢
    rcases List.eq_nil_or_concat' rs with h0 | ⟨rs0, r, hr⟩
    · exact absurd h0 hrs0
    · have hlast : (rs.map (fun r => serializeRecord r.1 r.2 ++ "\r")).getLastD "" =
          serializeRecord r.1 r.2 ++ "\r" := by
        rw [hr, List.map_append]
        simp only [List.map_cons, List.map_nil]
        exact List.getLastD_concat _ _ _
      rw [hlast, parse_serialize (hwf r (by rw [hr]; simp)) r.2]
      rw [List.length_map] at hlt ⊢
      rw [logInv_last_count hsnd hr]
      exact Nat.mod_eq_of_lt hlt

/-- C5, witness: after one accepted press from the initial state, the single
log line parses back to 1, the number of records appended. -/
theorem spec_C5_witness :
    readLinesOpt (runEv [Ev.loopIt true "2024-05-01 10:00:00"]).logFile ≠ [] ∧
    (readLinesOpt (runEv [Ev.loopIt true "2024-05-01 10:00:00"]).logFile).length
      < UINT32_MOD ∧
    parseButtonPressCount
      ((readLinesOpt (runEv [Ev.loopIt true "2024-05-01 10:00:00"]).logFile).getLastD "") =
      (readLinesOpt (runEv [Ev.loopIt true "2024-05-01 10:00:00"]).logFile).length := by
  have hok : ∀ e ∈ [Ev.loopIt true "2024-05-01 10:00:00"], evOK e := by
    intro e he
    rw [List.mem_singleton] at he
    rw [he]
    show tsWF "2024-05-01 10:00:00"
    decide
  have hne : readLinesOpt (runEv [Ev.loopIt true "2024-05-01 10:00:00"]).logFile ≠ [] := by
    decide
  have hlt : (readLinesOpt (runEv [Ev.loopIt true "2024-05-01 10:00:00"]).logFile).length
      < UINT32_MOD := by decide
  exact ⟨hne, hlt, spec_C5 _ hok hne hlt⟩

/-- C6: for every prior state, the reset action removes the persisted log
(leaving it with no lines), zeroes the in-memory counter, makes a subsequent
counter recovery yield 0, and responds 200. -/
theorem spec_C6 (d : DeviceState) :
    (handleServiceModeRequest (some "reset") d).2.1 = 200 ∧
    (handleServiceModeRequest (some "reset") d).1.logFile = none ∧
    readLinesOpt (handleServiceModeRequest (some "reset") d).1.logFile = [] ∧
    (handleServiceModeRequest (some "reset") d).1.numberOfPresses = 0 ∧
    loadButtonCountFromFile
      (handleServiceModeRequest (some "reset") d).1.logFile = 0 :=
  ⟨rfl, rfl, rfl, rfl, rfl⟩

/-- C7: draining a queue removes events oldest-first and, for each in FIFO
order, appends exactly one log line (the record serialized with the two
fields) and hands exactly one copy to the broadcast sink; the loop terminates
with the queue empty, and the new log lines are exactly the drained events in
order — none duplicated, none dropped. -/
theorem spec_C7 (d : DeviceState) (rs : List (String × Nat))
    (hwf : ∀ r ∈ rs, tsWF r.1) (hq : ∀ ts ∈ d.buttonLog, tsWF ts)
    (hfile : d.logFile = none ∨ d.logFile = some (logChars rs)) :
    (processFifoBuffer d).buttonLog = [] ∧
    readLinesOpt (processFifoBuffer d).logFile =
      readLinesOpt d.logFile ++
        d.buttonLog.map (fun ts => serializeRecord ts d.numberOfPresses ++ "\r") ∧
    (processFifoBuffer d).wsBroadcast =
      d.wsBroadcast ++
        d.buttonLog.map (fun ts => serializeRecord ts d.numberOfPresses) := by
  refine ⟨rfl, ?_,
    drainLoop_bc d.numberOfPresses d.buttonLog d.logFile d.wsBroadcast⟩
  show readLinesOpt
    (drainLoop d.numberOfPresses d.buttonLog d.logFile d.wsBroadcast).1 = _
  rcases hfile with hfn | hfs
  · rw [hfn]
    rcases hbq : d.buttonLog with _ | ⟨t, q⟩
    · rfl
    · rw [drainLoop_none]
      rw [readLinesOpt_logChars (by
        intro r hrm
        rw [List.mem_map] at hrm
        obtain ⟨ts2, hts2, he2⟩ := hrm
        rw [← he2]
        exact hq ts2 (by rw [hbq]; exact hts2))]
      rw [List.map_map]
      rfl
  · rw [hfs, drainLoop_some]
    rw [readLinesOpt_logChars (by
      intro r hrm
      rcases List.mem_append.mp hrm with h1 | h1
      · exact hwf r h1
      · rw [List.mem_map] at h1
        obtain ⟨ts2, hts2, he2⟩ := h1
        rw [← he2]
        exact hq ts2 hts2)]
    rw [readLinesOpt_logChars hwf, List.map_append, List.map_map]
    rfl

/-- C7, witness: draining a one-event queue onto a missing log file appends
and broadcasts exactly that event. -/
theorem spec_C7_witness :
    (processFifoBuffer c7State).buttonLog = [] ∧
    readLinesOpt (processFifoBuffer c7State).logFile =
      readLinesOpt c7State.logFile ++
        c7State.buttonLog.map
          (fun ts => serializeRecord ts c7State.numberOfPresses ++ "\r") ∧
    (processFifoBuffer c7State).wsBroadcast =
      c7State.wsBroadcast ++
        c7State.buttonLog.map
          (fun ts => serializeRecord ts c7State.numberOfPresses) :=
  spec_C7 c7State [] (by simp)
    (by
      intro ts hts
      have he : ts = "2024-05-01 10:00:00" := by simpa [c7State] using hts
      rw [he]
      decide)
    (Or.inl rfl)

/-- C8: a newly connecting viewer receives exactly the persisted log's lines,
one message per line, in file order (for every log whose lines are nonempty,
as are all lines this program writes), and in the sequential connection model
every such replayed line precedes every live event generated afterwards. -/
theorem spec_C8 (ls live : List String)
    (h : ∀ s ∈ ls, '\n' ∉ s.data ∧ ¬ s = "") :
    wsConnectReplay (some (LinesFile ls)) = ls ∧
    clientMessages (some (LinesFile ls)) live = ls ++ live := by
  have h1 : wsConnectReplay (some (LinesFile ls)) = ls := by
    show (readLines (LinesFile ls)).filter (fun l => !l.isEmpty) = ls
    rw [readLines_LinesFile ls (fun s hs => (h s hs).1)]
    apply List.filter_eq_self.mpr
    intro s hs
    have h2 : ¬ s = "" := (h s hs).2
    show (!s.isEmpty) = true
    cases hie : s.isEmpty with
    | false => rfl
    | true => exact absurd ((String.isEmpty_iff s).mp hie) h2
  exact ⟨h1, by rw [clientMessages, h1]⟩

/-- C8, witness: a two-line log is replayed verbatim before a later live
event. -/
theorem spec_C8_witness :
    (∀ s ∈ (["la", "lb"] : List String), '\n' ∉ s.data ∧ ¬ s = "") ∧
    wsConnectReplay (some (LinesFile ["la", "lb"])) = ["la", "lb"] ∧
    clientMessages (some (LinesFile ["la", "lb"])) ["live1"] =
      ["la", "lb"] ++ ["live1"] := by
  have h : ∀ s ∈ (["la", "lb"] : List String), '\n' ∉ s.data ∧ ¬ s = "" := by
    decide
  exact ⟨h, (spec_C8 _ ["live1"] h).1, (spec_C8 _ ["live1"] h).2⟩

/-- C9: readFileContents keeps only the final newline-terminated line of a
file; counter recovery therefore parses only the last log record; and since
saveWiFiConfig appends a fresh credentials line, reading the credentials file
back always yields the most recently saved credentials. -/
theorem spec_C9 :
    (∀ ls : List String, ls ≠ [] → (∀ s ∈ ls, '\n' ∉ s.data) →
      readFileContents (some (LinesFile ls)) = ls.getLastD "") ∧
    (∀ file : Option (List Char),
      loadButtonCountFromFile file =
        parseButtonPressCount (readFileContents file)) ∧
    (∀ (saves : List (String × String)) (ssid password : String),
      (∀ p ∈ saves, '\n' ∉ p.1.data ∧ '\n' ∉ p.2.data) →
      '\n' ∉ ssid.data → '\n' ∉ password.data →
      readFileContents
        (saveWiFiConfig ssid password
          (saves.foldl (fun f p => saveWiFiConfig p.1 p.2 f) none)) =
        serializeWiFiConfig ssid password ++ "\r") := by
  refine ⟨fun ls _ h => readFileContents_LinesFile ls h, fun _ => rfl, ?_⟩
  have hshape : ∀ (saves : List (String × String)) (f : Option (List Char)),
      (f = none ∨ ∃ ls, (∀ s ∈ ls, '\n' ∉ s.data) ∧ f = some (LinesFile ls)) →
      (∀ p ∈ saves, '\n' ∉ p.1.data ∧ '\n' ∉ p.2.data) →
      (saves.foldl (fun f p => saveWiFiConfig p.1 p.2 f) f = none ∨
        ∃ ls, (∀ s ∈ ls, '\n' ∉ s.data) ∧
          saves.foldl (fun f p => saveWiFiConfig p.1 p.2 f) f =
            some (LinesFile ls)) := by
    intro saves
    induction saves with
    | nil => intro f hf _; exact hf
    | cons p rest ih =>
      intro f hf h
      have hline : '\n' ∉ (serializeWiFiConfig p.1 p.2 ++ "\r").data :=
        append_cr_no_newline
          (serializeWiFiConfig_no_newline (h p (by simp)).1 (h p (by simp)).2)
      apply ih
      · right
        rcases hf with hfn | ⟨ls, hls, hfs⟩
        · refine ⟨[serializeWiFiConfig p.1 p.2 ++ "\r"], ?_, ?_⟩
          · intro s hs
            rw [List.mem_singleton] at hs
            rw [hs]
            exact hline
          · show saveWiFiConfig p.1 p.2 f = _
            rw [hfn]
            exact appendToFile_none _
        · refine ⟨ls ++ [serializeWiFiConfig p.1 p.2 ++ "\r"], ?_, ?_⟩
          · intro s hs
            rcases List.mem_append.mp hs with h1 | h1
            · exact hls s h1
            · rw [List.mem_singleton] at h1
              rw [h1]
              exact hline
          · show saveWiFiConfig p.1 p.2 f = _
            rw [hfs]
            exact appendToFile_some_LinesFile _ _
      · intro x hx
        exact h x (by simp [hx])
  intro saves ssid password hsaves hs hp
  have hline : '\n' ∉ (serializeWiFiConfig ssid password ++ "\r").data :=
    append_cr_no_newline (serializeWiFiConfig_no_newline hs hp)
  rcases hshape saves none (Or.inl rfl) hsaves with hfn | ⟨ls, hls, hfs⟩
  · rw [show saveWiFiConfig ssid password
        (saves.foldl (fun f p => saveWiFiConfig p.1 p.2 f) none) =
        appendToFile (serializeWiFiConfig ssid password)
          (saves.foldl (fun f p => saveWiFiConfig p.1 p.2 f) none) from rfl,
      hfn, appendToFile_none]
    rw [readFileContents_LinesFile _ (by
      intro s hs2
      rw [List.mem_singleton] at hs2
      rw [hs2]
      exact hline)]
    rfl
  · rw [show saveWiFiConfig ssid password
        (saves.foldl (fun f p => saveWiFiConfig p.1 p.2 f) none) =
        appendToFile (serializeWiFiConfig ssid password)
          (saves.foldl (fun f p => saveWiFiConfig p.1 p.2 f) none) from rfl,
      hfs, appendToFile_some_LinesFile]
    rw [readFileContents_LinesFile _ (by
      intro s hs2
      rcases List.mem_append.mp hs2 with h1 | h1
      · exact hls s h1
      · rw [List.mem_singleton] at h1
        rw [h1]
        exact hline)]
    exact List.getLastD_concat _ _ _

/-- C9, witness: the last of two newline-terminated lines is returned, and
after two credential saves the file reads back the second credentials. -/
theorem spec_C9_witness :
    (["la", "lb"] : List String) ≠ [] ∧
    readFileContents (some (LinesFile ["la", "lb"])) =
      (["la", "lb"] : List String).getLastD "" ∧
    readFileContents
      (saveWiFiConfig "homeNet" "secret2"
        (([("oldNet", "secret1")] : List (String × String)).foldl
          (fun f p => saveWiFiConfig p.1 p.2 f) none)) =
      serializeWiFiConfig "homeNet" "secret2" ++ "\r" :=
  ⟨by decide, spec_C9.1 ["la", "lb"] (by decide) (by decide),
    spec_C9.2.2 [("oldNet", "secret1")] "homeNet" "secret2"
      (by decide) (by decide) (by decide)⟩

/-- C10: at every main-loop iteration boundary the FIFO is empty; within an
iteration the handler enqueues at most one event, the drain empties the queue
again, and each drained event is broadcast (and appended) serialized with the
counter value the state holds at its enqueue. -/
theorem spec_C10 :
    (∀ evs : List Ev, (runEv evs).buttonLog = []) ∧
    (∀ (ts : String) (d : DeviceState), d.buttonLog = [] →
      (handleOnButtonPress ts d).buttonLog.length ≤ 1 ∧
      (processFifoBuffer (handleOnButtonPress ts d)).buttonLog = [] ∧
      (processFifoBuffer (handleOnButtonPress ts d)).wsBroadcast =
        (handleOnButtonPress ts d).wsBroadcast ++
          (handleOnButtonPress ts d).buttonLog.map
            (fun t => serializeRecord t
              (handleOnButtonPress ts d).numberOfPresses)) := by
  refine ⟨runEv_buttonLog_empty, ?_⟩
  intro ts d hd
  refine ⟨?_, rfl, drainLoop_bc _ _ _ _⟩
  unfold handleOnButtonPress
  by_cases hp : d.isPressed
  · rw [if_pos hp]
    simp [hd]
  · rw [if_neg hp, hd]
    decide

/-- C10, witness: the queue bound and drain applied at the initial state. -/
theorem spec_C10_witness :
    initialState.buttonLog = [] ∧
    (handleOnButtonPress "2024-05-01 10:00:00" initialState).buttonLog.length ≤ 1 ∧
    (runEv []).buttonLog = [] :=
  ⟨rfl, (spec_C10.2 "2024-05-01 10:00:00" initialState rfl).1, spec_C10.1 []⟩

end PressLogger
